import Mathlib

/-!
Verification of `src/rich_text_editor/index.js` (grapesjs RichTextEditor module).

The module keeps a flat ordered list of action records inside the built-in
rich text editor instance (`globalRte`), plus a toolbar DOM element created
once in `init`.  We embed the observable state of the module: a heap of JS
action objects (identified by numeric references, so that in-place mutation
and object identity are expressible), the ordered list of references held by
`globalRte.getActions()`, the allocation counter, and the toolbar element.
-/

namespace RTE

/-- A JS action object: its `name` property (`none` models an absent /
`undefined` property) and its remaining properties (`icon`, `attributes`,
`event`, `result`, ...) kept abstract as key/value pairs. -/
structure ActionObj where
  name : Option String
  other : List (String × String)
deriving DecidableEq, Repr

/-- The toolbar DOM element: an identity (`id`, allocation number of the
`document.createElement` call) and the style fields the module touches. -/
structure ToolbarEl where
  id : Nat
  className : String
  styleDisplay : String
  styleTop : String
  styleLeft : String
  pointerEvents : String
deriving DecidableEq, Repr

/-- Observable state of the RichTextEditor module. -/
structure RTEState where
  heap : List (Nat × ActionObj)
  actions : List Nat
  nextId : Nat
  toolbar : ToolbarEl
deriving DecidableEq, Repr

/-- Heap lookup: dereference an object reference. -/
def heapGet (h : List (Nat × ActionObj)) (r : Nat) : Option ActionObj :=
  (h.find? (fun p => p.1 == r)).map (fun p => p.2)

/-- Heap update: in-place mutation of the object `r` points to. -/
def heapSet (h : List (Nat × ActionObj)) (r : Nat) (o : ActionObj) : List (Nat × ActionObj) :=
  h.map (fun p => if p.1 = r then (r, o) else p)

/-- The second argument of `add(name, action)` as a JS value: omitted /
`undefined` (the default `= {}` kicks in), `null`, or an object reference. -/
inductive JSArg where
  | undefinedArg
  | nullArg
  | objArg (ref : Nat)
deriving DecidableEq, Repr

/-- The only failure the embedded code can raise: a `TypeError` from
assigning a property of `null`. -/
inductive JSError where
  | typeError
deriving DecidableEq, Repr

/-- Modelled from the spec: the file `./model/RichTextEditor` is not under
`src/`; per the spec, actions are a single entity "held in an ordered
sequence" and `globalRte.getActions()` returns that mutable sequence
(`addAction(action, {sync: 1})` only syncs the toolbar DOM and does not touch
the sequence, which `add` has already pushed to). -/
def getActions (s : RTEState) : List Nat :=
  s.actions

/-- `init(opts)`: `actions = config.actions || []`,
`toolbar = document.createElement('div')`,
`toolbar.className = ppfx + 'rte-toolbar'`.  The toolbar element is allocated
exactly here, with a fresh identity `tbId`. -/
def init (ppfx : String) (configActions : List Nat) (heap : List (Nat × ActionObj))
    (nextId : Nat) (tbId : Nat) : RTEState :=
  { heap := heap
    actions := configActions
    nextId := nextId
    toolbar :=
      { id := tbId
        className := ppfx ++ "rte-toolbar"
        styleDisplay := ""
        styleTop := ""
        styleLeft := ""
        pointerEvents := "" } }

/-- `add(name, action = {})`: `action.name = name;`
`globalRte.getActions().push(action);` `globalRte.addAction(action, {sync: 1})`.
With the argument omitted the default `{}` allocates a fresh empty object;
with `null` the assignment `action.name = name` throws a `TypeError` before
anything is pushed.  On success the result carries the new state and the
reference of the record that was pushed (the very object passed in). -/
def add (s : RTEState) (name : String) (arg : JSArg) : Except JSError (RTEState × Nat) :=
  match arg with
  | .undefinedArg =>
      let ref := s.nextId
      let obj : ActionObj := { name := some name, other := [] }
      .ok ({ s with
              heap := (ref, obj) :: s.heap
              actions := s.actions ++ [ref]
              nextId := s.nextId + 1 }, ref)
  | .nullArg => .error .typeError
  | .objArg ref =>
      match heapGet s.heap ref with
      | some o =>
          .ok ({ s with
                  heap := heapSet s.heap ref { o with name := some name }
                  actions := s.actions ++ [ref] }, ref)
      | none => .error .typeError

/-- The test `action.name == name` of the scan in `get`: the dereferenced
object has its `name` property equal to the queried string (an absent /
`undefined` property is `==`-unequal to any string). -/
def matchName (s : RTEState) (name : String) (ref : Nat) : Bool :=
  match heapGet s.heap ref with
  | some o => o.name == some name
  | none => false

/-- `get(name)`: `let result; getActions().forEach(action => { if
(action.name == name) result = action; }); return result;` — a left-to-right
scan that overwrites `result` on every match. -/
def get (s : RTEState) (name : String) : Option Nat :=
  (getActions s).foldl (fun result ref => if matchName s name ref then some ref else result) none

/-- `getAll()`: returns `globalRte.getActions()`. -/
def getAll (s : RTEState) : List Nat :=
  getActions s

/-- `getToolbarEl()`: returns the module-local `toolbar`. -/
def getToolbarEl (s : RTEState) : ToolbarEl :=
  s.toolbar

/-- The public operations of the module (after `init`). -/
inductive Op where
  | addOp (name : String) (arg : JSArg)
  | getOp (name : String)
  | getAllOp
  | getToolbarElOp
  | enableOp
  | disableOp
  | postRenderOp
deriving DecidableEq, Repr

/-- One public operation as a state transformer.  `get`, `getAll` and
`getToolbarEl` are pure reads.  A throwing `add` (null argument) leaves the
state unchanged: the exception propagates before any push.  `enable` clears
`toolbar.style.display`, `disable` sets `display = 'none'`, `top = 0`,
`left = 0`, and `postRender` sets `toolbar.style.pointerEvents = 'all'`;
none of them allocates a new toolbar element or touches the action list. -/
def step (s : RTEState) : Op → RTEState
  | .addOp name arg =>
      match add s name arg with
      | .ok (s1, _) => s1
      | .error _ => s
  | .getOp _ => s
  | .getAllOp => s
  | .getToolbarElOp => s
  | .enableOp => { s with toolbar := { s.toolbar with styleDisplay := "" } }
  | .disableOp =>
      { s with toolbar :=
          { s.toolbar with styleDisplay := "none", styleTop := "0", styleLeft := "0" } }
  | .postRenderOp => { s with toolbar := { s.toolbar with pointerEvents := "all" } }

/-- A sequence of public operations. -/
def run (s : RTEState) (ops : List Op) : RTEState :=
  ops.foldl step s

/-- Is the `add` argument one on which the JS code does not throw? -/
def validArg (s : RTEState) : JSArg → Bool
  | .undefinedArg => true
  | .nullArg => false
  | .objArg ref => (heapGet s.heap ref).isSome

/-! Concrete example states for witnesses. -/

/-- An example toolbar element. -/
def tb0 : ToolbarEl :=
  { id := 7, className := "gjs-rte-toolbar", styleDisplay := "", styleTop := ""
    styleLeft := "", pointerEvents := "" }

/-- An action object whose `name` property differs from the key it will be
registered under. -/
def obj0 : ActionObj :=
  { name := some "other", other := [("icon", "B")] }

/-- An example state holding one action object. -/
def s0 : RTEState :=
  { heap := [(0, obj0)], actions := [0], nextId := 1, toolbar := tb0 }

/-- The state after `add('bold')` (argument omitted) on `s0`. -/
def s0a : RTEState :=
  { heap := [(1, { name := some "bold", other := [] }), (0, obj0)]
    actions := [0, 1], nextId := 2, toolbar := tb0 }

/-- An action object already named `bold`. -/
def objB : ActionObj :=
  { name := some "bold", other := [] }

/-- A state that already holds an action named `bold`. -/
def sDup : RTEState :=
  { heap := [(0, objB)], actions := [0], nextId := 1, toolbar := tb0 }

/-- The state after a second `add('bold')` on `sDup`. -/
def sDupA : RTEState :=
  { heap := [(1, { name := some "bold", other := [] }), (0, objB)]
    actions := [0, 1], nextId := 2, toolbar := tb0 }

/-- The state after `add('bold', obj0)` on `s0`: the caller's object 0 was
renamed in place and pushed a second time. -/
def s0b : RTEState :=
  { heap := [(0, { name := some "bold", other := [("icon", "B")] })]
    actions := [0, 0], nextId := 1, toolbar := tb0 }

/-! Helper lemmas. -/

theorem heapGet_cons_self (h : List (Nat × ActionObj)) (r : Nat) (o : ActionObj) :
    heapGet ((r, o) :: h) r = some o := by
  simp [heapGet, List.find?_cons]

theorem heapGet_cons_ne (h : List (Nat × ActionObj)) (k r : Nat) (o : ActionObj)
    (hne : k ≠ r) : heapGet ((k, o) :: h) r = heapGet h r := by
  simp [heapGet, List.find?_cons, hne]

theorem heapGet_heapSet_self (h : List (Nat × ActionObj)) (r : Nat) (o o0 : ActionObj)
    (h0 : heapGet h r = some o0) : heapGet (heapSet h r o) r = some o := by
  induction h with
  | nil => simp [heapGet] at h0
  | cons p t ih =>
    obtain ⟨k, v⟩ := p
    show heapGet ((if k = r then (r, o) else (k, v)) :: heapSet t r o) r = some o
    by_cases hk : k = r
    · rw [if_pos hk, heapGet_cons_self]
    · rw [if_neg hk, heapGet_cons_ne _ _ _ _ hk]
      rw [heapGet_cons_ne _ _ _ _ hk] at h0
      exact ih h0

theorem heapGet_heapSet_ne (h : List (Nat × ActionObj)) (r : Nat) (o : ActionObj)
    (r2 : Nat) (hne : r2 ≠ r) : heapGet (heapSet h r o) r2 = heapGet h r2 := by
  induction h with
  | nil => rfl
  | cons p t ih =>
    obtain ⟨k, v⟩ := p
    show heapGet ((if k = r then (r, o) else (k, v)) :: heapSet t r o) r2
        = heapGet ((k, v) :: t) r2
    by_cases hk : k = r
    · subst hk
      rw [if_pos rfl, heapGet_cons_ne _ _ _ _ hne.symm, heapGet_cons_ne _ _ _ _ hne.symm]
      exact ih
    · rw [if_neg hk]
      by_cases hk2 : k = r2
      · subst hk2
        rw [heapGet_cons_self, heapGet_cons_self]
      · rw [heapGet_cons_ne _ _ _ _ hk2, heapGet_cons_ne _ _ _ _ hk2]
        exact ih

theorem cons_getLast?_some (a : Nat) (l : List Nat) : ∃ y, (a :: l).getLast? = some y := by
  induction l generalizing a with
  | nil => exact ⟨a, rfl⟩
  | cons b t ih =>
    obtain ⟨y, hy⟩ := ih b
    exact ⟨y, by rw [List.getLast?_cons_cons]; exact hy⟩

theorem mem_of_getLast?_some {l : List Nat} {a : Nat} (h : l.getLast? = some a) : a ∈ l := by
  induction l with
  | nil => cases h
  | cons b t ih =>
    cases t with
    | nil =>
      have hb : a = b := by simpa using h.symm
      simp [hb]
    | cons c u =>
      rw [List.getLast?_cons_cons] at h
      exact List.mem_cons_of_mem b (ih h)

theorem foldl_last_match (p : Nat → Bool) (l : List Nat) :
    ∀ init : Option Nat,
      l.foldl (fun r x => if p x then some x else r) init = ((l.filter p).getLast?).or init := by
  induction l with
  | nil => intro init; rfl
  | cons a t ih =>
    intro init
    rw [List.foldl_cons, List.filter_cons]
    by_cases hp : p a = true
    · rw [if_pos hp, if_pos hp, ih]
      cases hf : t.filter p with
      | nil => rfl
      | cons b u =>
        obtain ⟨y, hy⟩ := cons_getLast?_some b u
        rw [hy, List.getLast?_cons_cons, hy]
        rfl
    · rw [if_neg hp, if_neg hp, ih]

theorem get_eq_last_filter (s : RTEState) (name : String) :
    get s name = ((getActions s).filter (matchName s name)).getLast? := by
  unfold get
  rw [foldl_last_match (matchName s name) (getActions s) none, Option.or_none]

theorem add_ok_cases (s : RTEState) (name : String) (arg : JSArg) (s1 : RTEState) (ref : Nat)
    (h : add s name arg = .ok (s1, ref)) :
    (arg = .undefinedArg ∧ ref = s.nextId ∧
       s1 = { s with
                heap := (s.nextId, { name := some name, other := [] }) :: s.heap
                actions := s.actions ++ [s.nextId]
                nextId := s.nextId + 1 })
  ∨ (∃ o, arg = .objArg ref ∧ heapGet s.heap ref = some o ∧
       s1 = { s with
                heap := heapSet s.heap ref { o with name := some name }
                actions := s.actions ++ [ref] }) := by
  cases arg with
  | undefinedArg =>
    left
    simp only [add, Except.ok.injEq, Prod.mk.injEq] at h
    exact ⟨rfl, h.2.symm, h.1.symm⟩
  | nullArg => cases h
  | objArg r =>
    right
    cases hh : heapGet s.heap r with
    | none => rw [add, hh] at h; cases h
    | some o =>
      rw [add, hh] at h
      simp only [Except.ok.injEq, Prod.mk.injEq] at h
      obtain ⟨hs, hr⟩ := h
      subst hr
      exact ⟨o, rfl, hh, hs.symm⟩

theorem step_actions_extends (s : RTEState) (op : Op) :
    ∃ t, (step s op).actions = s.actions ++ t := by
  cases op with
  | addOp name arg =>
    cases arg with
    | undefinedArg => exact ⟨[s.nextId], rfl⟩
    | nullArg => exact ⟨[], (List.append_nil _).symm⟩
    | objArg ref =>
      cases hh : heapGet s.heap ref with
      | some o => exact ⟨[ref], by simp [step, add, hh]⟩
      | none => exact ⟨[], by simp [step, add, hh]⟩
  | getOp name => exact ⟨[], (List.append_nil _).symm⟩
  | getAllOp => exact ⟨[], (List.append_nil _).symm⟩
  | getToolbarElOp => exact ⟨[], (List.append_nil _).symm⟩
  | enableOp => exact ⟨[], (List.append_nil _).symm⟩
  | disableOp => exact ⟨[], (List.append_nil _).symm⟩
  | postRenderOp => exact ⟨[], (List.append_nil _).symm⟩

theorem run_actions_extends (ops : List Op) :
    ∀ s : RTEState, ∃ t, (run s ops).actions = s.actions ++ t := by
  induction ops with
  | nil => intro s; exact ⟨[], (List.append_nil _).symm⟩
  | cons op rest ih =>
    intro s
    obtain ⟨t1, h1⟩ := step_actions_extends s op
    obtain ⟨t2, h2⟩ := ih (step s op)
    refine ⟨t1 ++ t2, ?_⟩
    show (run (step s op) rest).actions = s.actions ++ (t1 ++ t2)
    rw [h2, h1, List.append_assoc]

theorem step_toolbar_id (s : RTEState) (op : Op) :
    (step s op).toolbar.id = s.toolbar.id := by
  cases op with
  | addOp name arg =>
    cases arg with
    | undefinedArg => rfl
    | nullArg => rfl
    | objArg ref => cases hh : heapGet s.heap ref <;> simp [step, add, hh]
  | getOp name => rfl
  | getAllOp => rfl
  | getToolbarElOp => rfl
  | enableOp => rfl
  | disableOp => rfl
  | postRenderOp => rfl

theorem run_toolbar_id (ops : List Op) :
    ∀ s : RTEState, (run s ops).toolbar.id = s.toolbar.id := by
  induction ops with
  | nil => intro s; rfl
  | cons op rest ih =>
    intro s
    show (run (step s op) rest).toolbar.id = s.toolbar.id
    rw [ih (step s op), step_toolbar_id]

/-! The claims. -/

/-- C1: for every action added via `add(name, action)` (any non-throwing call:
action omitted or an object), the pushed record subsequently appears in the
list returned by `getAll()`. -/
theorem c1_added_action_in_getAll (s : RTEState) (name : String) (arg : JSArg)
    (s1 : RTEState) (ref : Nat) (h : add s name arg = .ok (s1, ref)) :
    ref ∈ getAll s1 := by
  rcases add_ok_cases s name arg s1 ref h with ⟨_, hr, hs⟩ | ⟨o, _, _, hs⟩ <;>
    subst hs <;> simp [getAll, getActions]
  exact Or.inr hr

/-- C1 witness: the record pushed by `add('bold')` on `s0` is in `getAll()`
of the resulting state `s0a`. -/
theorem c1_added_action_in_getAll_witness : (1 : Nat) ∈ getAll s0a :=
  c1_added_action_in_getAll s0 "bold" JSArg.undefinedArg s0a 1 (by rfl)

/-- C2: `get(name)` returns an action from the list whose `name` property
equals the queried name whenever at least one such action is in the list, and
returns `undefined` (`none`) when no action in the list matches. -/
theorem c2_get_by_name (s : RTEState) (name : String) :
    ((∃ ref ∈ getActions s, matchName s name ref = true) →
       ∃ ref, get s name = some ref ∧ ref ∈ getActions s ∧ matchName s name ref = true)
  ∧ ((∀ ref ∈ getActions s, matchName s name ref = false) → get s name = none) := by
  constructor
  · rintro ⟨ref, href, hm⟩
    have hmem : ref ∈ (getActions s).filter (matchName s name) :=
      List.mem_filter.mpr ⟨href, hm⟩
    rw [get_eq_last_filter]
    cases hf : (getActions s).filter (matchName s name) with
    | nil => rw [hf] at hmem; cases hmem
    | cons b u =>
      obtain ⟨y, hy⟩ := cons_getLast?_some b u
      have hymem : y ∈ (getActions s).filter (matchName s name) := by
        rw [hf]; exact mem_of_getLast?_some hy
      exact ⟨y, hy, (List.mem_filter.mp hymem).1, (List.mem_filter.mp hymem).2⟩
  · intro hall
    rw [get_eq_last_filter]
    have hnil : (getActions s).filter (matchName s name) = [] := by
      rw [List.filter_eq_nil_iff]
      intro a ha
      rw [hall a ha]
      exact Bool.false_ne_true
    rw [hnil]
    rfl

/-- C2 witness: in the concrete state `s0` no action is named `missing`, and
`get` returns nothing for it. -/
theorem c2_get_by_name_witness : get s0 "missing" = none :=
  (c2_get_by_name s0 "missing").2 (by decide)

/-- C3: `add` always appends at the end: after a successful
`add(name, action)` the list returned by `getAll()` is the previous list with
the new record appended, with no uniqueness check on the name. -/
theorem c3_add_appends (s : RTEState) (name : String) (arg : JSArg)
    (s1 : RTEState) (ref : Nat) (h : add s name arg = .ok (s1, ref)) :
    getAll s1 = getAll s ++ [ref] := by
  rcases add_ok_cases s name arg s1 ref h with ⟨_, hr, hs⟩ | ⟨o, _, _, hs⟩ <;> subst hs
  · rw [hr]; rfl
  · rfl

/-- C3 witness: adding a second action named `bold` to a state that already
holds one appends it; both then appear in `getAll()`. -/
theorem c3_add_appends_witness : getAll sDupA = getAll sDup ++ [1] :=
  c3_add_appends sDup "bold" JSArg.undefinedArg sDupA 1 (by rfl)

/-- C4: no public operation removes an action: over any sequence of public
operations, `getAll()` only grows at the end, its length is non-decreasing,
and every previously present action remains present. -/
theorem c4_actions_never_removed (s : RTEState) (ops : List Op) :
    (∃ t, getAll (run s ops) = getAll s ++ t)
  ∧ (getAll s).length ≤ (getAll (run s ops)).length
  ∧ ∀ ref ∈ getAll s, ref ∈ getAll (run s ops) := by
  obtain ⟨t, ht⟩ := run_actions_extends ops s
  have ht2 : getAll (run s ops) = getAll s ++ t := ht
  refine ⟨⟨t, ht2⟩, ?_, ?_⟩
  · rw [ht2]; simp
  · intro ref href
    rw [ht2]
    exact List.mem_append_left _ href

/-- C4 witness: action `0` of `s0` is still present after a concrete run of
add, enable, get and disable. -/
theorem c4_actions_never_removed_witness :
    (0 : Nat) ∈ getAll (run s0 [Op.addOp "bold" JSArg.undefinedArg, Op.enableOp,
      Op.getOp "bold", Op.disableOp]) :=
  (c4_actions_never_removed s0 [Op.addOp "bold" JSArg.undefinedArg, Op.enableOp,
      Op.getOp "bold", Op.disableOp]).2.2 0 (by decide)

/-- C5: every stored record carries the name it was registered under:
`action.name = name` runs before the push, so the stored record's `name`
property equals the `name` argument even when the passed object carried a
different (or no) `name`. -/
theorem c5_stored_name (s : RTEState) (name : String) (arg : JSArg)
    (s1 : RTEState) (ref : Nat) (h : add s name arg = .ok (s1, ref)) :
    ∃ o, heapGet s1.heap ref = some o ∧ o.name = some name := by
  rcases add_ok_cases s name arg s1 ref h with ⟨_, hr, hs⟩ | ⟨o, _, ho, hs⟩ <;> subst hs
  · subst hr
    exact ⟨_, heapGet_cons_self _ _ _, rfl⟩
  · exact ⟨_, heapGet_heapSet_self _ _ _ _ ho, rfl⟩

/-- C5 witness: `obj0` is named `other`, yet after `add('bold', obj0)` the
stored record is named `bold`. -/
theorem c5_stored_name_witness :
    ∃ o, heapGet s0b.heap 0 = some o ∧ o.name = some "bold" :=
  c5_stored_name s0 "bold" (JSArg.objArg 0) s0b 0 (by rfl)

/-- C6: the toolbar element is created once in `init` (with identity `tbId`)
and reused: after any sequence of public operations, `getToolbarEl()` still
returns the element with that same identity — `postRender`, `enable` and
`disable` mutate its style but never allocate a replacement. -/
theorem c6_toolbar_created_once (ppfx : String) (cfg : List Nat)
    (heap : List (Nat × ActionObj)) (n tbId : Nat) (ops : List Op) :
    (getToolbarEl (run (init ppfx cfg heap n tbId) ops)).id
      = (getToolbarEl (init ppfx cfg heap n tbId)).id
  ∧ (getToolbarEl (init ppfx cfg heap n tbId)).id = tbId :=
  ⟨run_toolbar_id ops (init ppfx cfg heap n tbId), rfl⟩

/-- C7 counterexample: the claim says `add` completes without raising an
error even for a `null` action argument, but `add('bold', null)` executes
`action.name = name` on `null` and throws a `TypeError`. -/
theorem c7_null_action_throws :
    add s0 "bold" JSArg.nullArg = Except.error JSError.typeError := rfl

/-- C7 (amended): `get`, `getAll` and `getToolbarEl` are total, and
`add(name, action)` completes without error for every name whenever the
action argument is omitted (`undefined`) or an existing object; only
`add(name, null)` throws (a `TypeError` on `action.name = name`). -/
theorem c7_accessors_total (s : RTEState) (name : String) (arg : JSArg)
    (h : validArg s arg = true) :
    ∃ s1 ref, add s name arg = .ok (s1, ref) := by
  cases arg with
  | undefinedArg => exact ⟨_, _, rfl⟩
  | nullArg => simp [validArg] at h
  | objArg ref =>
    cases hh : heapGet s.heap ref with
    | some o => exact ⟨_, _, by rw [add, hh]⟩
    | none => rw [validArg, hh] at h; cases h

/-- C7 witness: `add('bold')` with the action argument omitted succeeds on
the concrete state `s0`. -/
theorem c7_accessors_total_witness :
    ∃ s1 ref, add s0 "bold" JSArg.undefinedArg = .ok (s1, ref) :=
  c7_accessors_total s0 "bold" JSArg.undefinedArg (by decide)

/-- C8: `get(name)` returns the last (in sequence order) action whose `name`
matches, because the `forEach` scan overwrites its `result` on every match
instead of stopping at the first. -/
theorem c8_get_returns_last_match (s : RTEState) (name : String) :
    get s name = ((getActions s).filter (matchName s name)).getLast? :=
  get_eq_last_filter s name

/-- C9: `add(name, action)` with an object argument mutates the caller's
object in place: the pushed reference is the very reference passed in, that
object's `name` property becomes the `name` argument while all its other
properties are unchanged, every other heap object is untouched, and the list
gains exactly that reference. -/
theorem c9_add_mutates_in_place (s : RTEState) (name : String) (ref : Nat)
    (o : ActionObj) (s1 : RTEState) (ref2 : Nat)
    (ho : heapGet s.heap ref = some o)
    (h : add s name (.objArg ref) = .ok (s1, ref2)) :
    ref2 = ref
  ∧ heapGet s1.heap ref = some { o with name := some name }
  ∧ (∀ r, r ≠ ref → heapGet s1.heap r = heapGet s.heap r)
  ∧ s1.actions = s.actions ++ [ref] := by
  rw [add, ho] at h
  simp only [Except.ok.injEq, Prod.mk.injEq] at h
  obtain ⟨hs, hr⟩ := h
  subst hr
  subst hs
  refine ⟨rfl, heapGet_heapSet_self _ _ _ _ ho, ?_, rfl⟩
  intro r hrne
  exact heapGet_heapSet_ne _ _ _ _ hrne

/-- C9 witness: after `add('bold', obj0)` on `s0`, object `0` holds the new
name while keeping its `icon` property. -/
theorem c9_add_mutates_in_place_witness :
    heapGet s0b.heap 0 = some { obj0 with name := some "bold" } :=
  (c9_add_mutates_in_place s0 "bold" 0 obj0 s0b 0 (by rfl) (by rfl)).2.1

/-- C10: `add(name)` with the action argument omitted stores the fresh record
`{name: name}` (no other properties): it appears in `getAll()` and, being the
last match, is returned by `get(name)`. -/
theorem c10_omitted_action (s : RTEState) (name : String)
    (s1 : RTEState) (ref : Nat)
    (h : add s name .undefinedArg = .ok (s1, ref)) :
    heapGet s1.heap ref = some { name := some name, other := [] }
  ∧ ref ∈ getAll s1
  ∧ get s1 name = some ref := by
  simp only [add, Except.ok.injEq, Prod.mk.injEq] at h
  obtain ⟨hs, hr⟩ := h
  subst hr
  subst hs
  refine ⟨heapGet_cons_self _ _ _, by simp [getAll, getActions], ?_⟩
  rw [get_eq_last_filter]
  have hm : matchName
      { s with
          heap := (s.nextId, { name := some name, other := [] }) :: s.heap
          actions := s.actions ++ [s.nextId]
          nextId := s.nextId + 1 } name s.nextId = true := by
    unfold matchName
    rw [heapGet_cons_self]
    simp
  show (List.filter _ (s.actions ++ [s.nextId])).getLast? = some s.nextId
  rw [List.filter_append]
  rw [show List.filter
      (matchName
        { s with
            heap := (s.nextId, { name := some name, other := [] }) :: s.heap
            actions := s.actions ++ [s.nextId]
            nextId := s.nextId + 1 } name) [s.nextId] = [s.nextId] by
    rw [List.filter_cons, if_pos hm]; rfl]
  exact List.getLast?_concat _

/-- C10 witness: `add('bold')` on `s0` stores `{name: 'bold'}`, which shows
up in `getAll()` and is what `get('bold')` returns. -/
theorem c10_omitted_action_witness :
    heapGet s0a.heap 1 = some { name := some "bold", other := [] }
  ∧ (1 : Nat) ∈ getAll s0a
  ∧ get s0a "bold" = some 1 :=
  c10_omitted_action s0 "bold" s0a 1 (by rfl)

end RTE
